import Mathlib

/-!
# Verification development for the RAG pipeline repository

The repository is a notebook (src/asset.ipynb) that wires third-party
components (document loader, embedder, in-memory vector store, prompt
template, language model) into a retrieval-augmented answering pipeline.
The vector store, retriever and chain orchestration live in third-party
libraries, so those components are modelled here from the specification
(marked `Modelled from the spec:`); the prompt template text and the
model-initialization cell are taken from the notebook source itself.

Strings are modelled as lists of characters, numbers as exact rationals.
-/

/-- Strings are modelled as lists of characters. -/
abbrev Str := List Char

/-- A retrievable unit of text (spec, section 3): stable id plus text. -/
structure Chunk where
  id : Nat
  text : Str
  deriving DecidableEq, Repr

/-- Embedding vectors: fixed-dimension arrays of numbers (spec, section 3),
modelled over exact rationals. -/
abbrev EmbeddingVector := List ℚ

/-- Pairing of a Chunk with its EmbeddingVector (spec, section 3). -/
structure IndexEntry where
  chunk : Chunk
  vector : EmbeddingVector
  deriving DecidableEq, Repr

/-- Modelled from the spec: the Vector Index (section 4.1). The concrete
store of the notebook (DocArrayInMemorySearch) is a third-party library and
not part of this repository, so the index is modelled as the ordered list
of its entries. -/
structure VectorIndex where
  entries : List IndexEntry
  deriving DecidableEq, Repr

/-- Error taxonomy relevant to the Vector Index (spec, section 7). -/
inductive IndexError where
  | DimensionMismatch
  deriving DecidableEq, Repr

/-- Dot product of two rational vectors (truncating at the shorter one). -/
def dotProduct : List ℚ → List ℚ → ℚ
  | x :: xs, y :: ys => x * y + dotProduct xs ys
  | _, _ => 0

/-- Squared Euclidean norm of a vector. -/
def normSq (v : EmbeddingVector) : ℚ := dotProduct v v

/-- Modelled from the spec: the similarity metric of section 4.1, which asks
for cosine similarity or an equivalent normalized inner-product metric. To
stay within exact rational arithmetic it is realized as
sign(d) * d ^ 2 / (normSq u * normSq v) where d is the dot product. Because
x maps to sign(x) * x ^ 2 monotonically, this induces exactly the cosine
ranking, and it attains its maximum value 1 exactly where cosine attains 1. -/
def sim (u v : EmbeddingVector) : ℚ :=
  if dotProduct u v < 0 then -(dotProduct u v ^ 2 / (normSq u * normSq v))
  else dotProduct u v ^ 2 / (normSq u * normSq v)

theorem dotProduct_nil (v : List ℚ) : dotProduct [] v = 0 := by
  cases v <;> rfl

theorem dotProduct_nil_right (v : List ℚ) : dotProduct v [] = 0 := by
  cases v <;> rfl

theorem dotProduct_self_nonneg (v : List ℚ) : 0 ≤ dotProduct v v := by
  induction v with
  | nil => simp [dotProduct]
  | cons x xs ih =>
      have hx : 0 ≤ x * x := mul_self_nonneg x
      simpa [dotProduct] using add_nonneg hx ih

/-- Cauchy-Schwarz for the list dot product, squared form. -/
theorem dotProduct_sq_le (u v : List ℚ) :
    dotProduct u v ^ 2 ≤ dotProduct u u * dotProduct v v := by
  induction u generalizing v with
  | nil =>
      simp [dotProduct_nil]
  | cons x xs ih =>
      cases v with
      | nil =>
          simp [dotProduct_nil_right, dotProduct_nil]
      | cons y ys =>
          have hcs := ih ys
          have hNx := dotProduct_self_nonneg xs
          have hNy := dotProduct_self_nonneg ys
          simp only [dotProduct]
          rcases hNy.eq_or_lt with h0 | hpos
          · have hDsq : dotProduct xs ys ^ 2 = 0 := by
              refine le_antisymm ?_ (sq_nonneg _)
              calc dotProduct xs ys ^ 2 ≤ dotProduct xs xs * dotProduct ys ys := hcs
                _ = 0 := by rw [← h0, mul_zero]
            have hD : dotProduct xs ys = 0 := by
              have h2 : (2:ℕ) ≠ 0 := by norm_num
              exact (pow_eq_zero_iff h2).mp hDsq
            rw [hD, ← h0]
            nlinarith [mul_nonneg hNx (sq_nonneg y)]
          · have hdel : 0 ≤ dotProduct xs xs * dotProduct ys ys - dotProduct xs ys ^ 2 :=
              sub_nonneg.mpr hcs
            nlinarith [sq_nonneg (x * dotProduct ys ys - y * dotProduct xs ys),
              mul_nonneg hdel (sq_nonneg y), mul_nonneg hNy hdel, hpos]

theorem normSq_nonneg (v : EmbeddingVector) : 0 ≤ normSq v :=
  dotProduct_self_nonneg v

/-- The similarity metric never exceeds 1: 1 is its maximum attainable value. -/
theorem sim_le_one (u v : EmbeddingVector) : sim u v ≤ 1 := by
  unfold sim
  split
  · have h1 : (0:ℚ) ≤ dotProduct u v ^ 2 / (normSq u * normSq v) :=
      div_nonneg (sq_nonneg _) (mul_nonneg (normSq_nonneg u) (normSq_nonneg v))
    linarith
  · rcases eq_or_ne (normSq u * normSq v) 0 with h0 | h0
    · rw [h0, div_zero]; norm_num
    · have hpos : 0 < normSq u * normSq v :=
        lt_of_le_of_ne (mul_nonneg (normSq_nonneg u) (normSq_nonneg v)) (Ne.symm h0)
      exact (div_le_one hpos).mpr (dotProduct_sq_le u v)

/-- Self-similarity of a vector with nonzero norm is exactly 1. -/
theorem sim_self (v : EmbeddingVector) (h : normSq v ≠ 0) : sim v v = 1 := by
  unfold sim
  have hd : dotProduct v v = normSq v := rfl
  rw [hd]
  rw [if_neg (not_lt.mpr (normSq_nonneg v))]
  rw [pow_two]
  exact div_self (mul_ne_zero h h)

/-- The established dimension of the index, fixed by the first inserted
vector (spec, section 4.1); none when the index is empty. -/
def VectorIndex.dim? (idx : VectorIndex) : Option Nat :=
  idx.entries.head?.map (fun e => e.vector.length)

/-- Modelled from the spec: add(chunk, vector) of section 4.1 appends an
IndexEntry and fails with DimensionMismatch when the vector length differs
from the established dimension. No deduplication is performed. -/
def VectorIndex.add (idx : VectorIndex) (c : Chunk) (v : EmbeddingVector) :
    Except IndexError VectorIndex :=
  match idx.dim? with
  | none => .ok ⟨idx.entries ++ [⟨c, v⟩]⟩
  | some D =>
      if v.length = D then .ok ⟨idx.entries ++ [⟨c, v⟩]⟩
      else .error .DimensionMismatch

/-- An index entry scored against a query: similarity score, insertion
position, chunk. Used internally by search for ranking. -/
structure Ranked where
  score : ℚ
  pos : Nat
  chunk : Chunk
  deriving DecidableEq, Repr

/-- The ranking order of section 4.1: descending similarity score, ties
broken by insertion order (earlier position first). -/
def rankLE (a b : Ranked) : Prop :=
  b.score < a.score ∨ (a.score = b.score ∧ a.pos ≤ b.pos)

instance : DecidableRel rankLE := fun a b =>
  inferInstanceAs (Decidable (b.score < a.score ∨ (a.score = b.score ∧ a.pos ≤ b.pos)))

instance : IsTotal Ranked rankLE where
  total a b := by
    rcases lt_trichotomy a.score b.score with h | h | h
    · exact Or.inr (Or.inl h)
    · rcases Nat.le_total a.pos b.pos with hp | hp
      · exact Or.inl (Or.inr ⟨h, hp⟩)
      · exact Or.inr (Or.inr ⟨h.symm, hp⟩)
    · exact Or.inl (Or.inl h)

instance : IsTrans Ranked rankLE where
  trans a b c hab hbc := by
    rcases hab with h1 | ⟨h1, hp1⟩
    · rcases hbc with h2 | ⟨h2, _⟩
      · exact Or.inl (h2.trans h1)
      · exact Or.inl (h2 ▸ h1)
    · rcases hbc with h2 | ⟨h2, hp2⟩
      · exact Or.inl (by rw [h1]; exact h2)
      · exact Or.inr ⟨h1.trans h2, hp1.trans hp2⟩

/-- Every stored entry scored against the query and tagged with its
insertion position: the brute-force linear scan of section 4.1. -/
def scoredEntries (idx : VectorIndex) (q : EmbeddingVector) : List Ranked :=
  idx.entries.enum.map (fun p => ⟨sim q p.2.vector, p.1, p.2.chunk⟩)

/-- The stored entries ranked by descending similarity, ties by insertion
order. -/
def rankedList (idx : VectorIndex) (q : EmbeddingVector) : List Ranked :=
  List.insertionSort rankLE (scoredEntries idx q)

/-- One (chunk, similarity score) pair of a RetrievalResult (spec,
section 3). -/
structure ScoredChunk where
  chunk : Chunk
  score : ℚ
  deriving DecidableEq, Repr

/-- Modelled from the spec: search(queryVector, k) of section 4.1 returns at
most k entries ranked by descending similarity with ties broken by insertion
order, fails with DimensionMismatch when the query dimension differs from
the established one, and returns an empty result (never an error) on an
empty index. -/
def VectorIndex.search (idx : VectorIndex) (q : EmbeddingVector) (k : Nat) :
    Except IndexError (List ScoredChunk) :=
  match idx.dim? with
  | none => .ok []
  | some D =>
      if q.length = D then
        .ok (((rankedList idx q).take k).map (fun r => ⟨r.chunk, r.score⟩))
      else .error .DimensionMismatch

/-- Opening brace character. -/
def lbrace : Char := Char.ofNat 123

/-- Closing brace character. -/
def rbrace : Char := Char.ofNat 125

/-- The prompt template string of the source notebook (src/asset.ipynb,
prompt-definition cell), verbatim, including the stray leading A and the
trailing space after the words "you can" plus apostrophe t. -/
def template : Str :=
  "\nAPlease answer the question based on the below context. If you can\x27t \nanswer the question, reply \x22I don\x27t know\x22.\n\nContext: \x7bcontext\x7d\n\nQuestion: \x7bquestion\x7d\n".toList

/-- Literal text of the template before the context placeholder. -/
def lit1 : Str :=
  "\nAPlease answer the question based on the below context. If you can\x27t \nanswer the question, reply \x22I don\x27t know\x22.\n\nContext: ".toList

/-- Literal text of the template between the two placeholders. -/
def lit2 : Str := "\n\nQuestion: ".toList

/-- Literal text of the template after the question placeholder. -/
def lit3 : Str := "\n".toList

/-- The context placeholder token of the template. -/
def ctxToken : Str := "\x7bcontext\x7d".toList

/-- The question placeholder token of the template. -/
def qToken : Str := "\x7bquestion\x7d".toList

/-- The template decomposes into literal segments around its two
placeholders; this records that the segment definitions below are exactly
the pieces of the source template. -/
theorem template_decomposition :
    template = lit1 ++ ctxToken ++ lit2 ++ qToken ++ lit3 := by decide

/-- The Prompt Builder build(context, question) (spec, section 4.2), the
semantics of PromptTemplate.format of the source: plain simultaneous text
substitution of the two placeholders of the template; substituted values are
inserted verbatim and are not rescanned for placeholders. -/
def PromptBuilder.build (context question : Str) : Str :=
  lit1 ++ context ++ lit2 ++ question ++ lit3

/-- Modelled from the spec: configuration of the pipeline (sections 4.3 and
6): pluggable deterministic Embedder and LanguageModel backends, the
retrieval constant k, and the separator used to join retrieved chunk
texts. -/
structure RAGConfig where
  embed : Str → EmbeddingVector
  generate : Str → Str
  k : Nat
  separator : Str

/-- Step 3 of the orchestrator algorithm (spec, section 4.3): the context is
the join of the retrieved chunk texts with the separator. -/
def contextOf (sep : Str) (results : List ScoredChunk) : Str :=
  List.intercalate sep (results.map (fun r => r.chunk.text))

/-- Modelled from the spec: the Pipeline Orchestrator single-question
algorithm (section 4.3, steps 1 to 5): embed the question, search, join the
retrieved texts into the context, build the prompt, generate. There is no
branch on an empty retrieval result. -/
def runPipeline (cfg : RAGConfig) (idx : VectorIndex) (question : Str) :
    Except IndexError Str :=
  match idx.search (cfg.embed question) cfg.k with
  | .error e => .error e
  | .ok results =>
      .ok (cfg.generate (PromptBuilder.build (contextOf cfg.separator results) question))

/-- Modelled from the spec: batch mode (section 4.3) applies the
single-question algorithm independently per question; each output position
carries that position's own answer or error. -/
def pipelineBatch (cfg : RAGConfig) (idx : VectorIndex) (qs : List Str) :
    List (Except IndexError Str) :=
  qs.map (runPipeline cfg idx)

/-- The Python error raised when an unbound name is read. -/
inductive PyError where
  | nameError
  deriving DecidableEq, Repr

/-- Model of the model-initialization cell of src/asset.ipynb, run in a
fresh session: the cell branches on MODEL.startswith of the string gpt; the
name response is bound only in the else branch, and the final unconditional
print reads response, raising NameError when it is unbound. The invoke
argument stands for the Ollama backend call. -/
def runModelInitCell (MODEL : Str) (invoke : Str → Str) : Except PyError Str :=
  let response : Option Str := none
  let response : Option Str :=
    match List.isPrefixOf "gpt".toList MODEL with
    | true => response
    | false => some (invoke "Where is the capital city of Afghanistan?".toList)
  match response with
  | none => .error .nameError
  | some r => .ok r

theorem search_nil (idx : VectorIndex) (q : EmbeddingVector) (k : Nat)
    (h : idx.entries = []) : idx.search q k = .ok [] := by
  unfold VectorIndex.search VectorIndex.dim?
  rw [h]
  rfl

theorem search_eq_ok (idx : VectorIndex) (q : EmbeddingVector) (k D : Nat)
    (hne : idx.entries ≠ []) (hD : ∀ e ∈ idx.entries, e.vector.length = D)
    (hq : q.length = D) :
    idx.search q k =
      .ok (((rankedList idx q).take k).map (fun r => ⟨r.chunk, r.score⟩)) := by
  unfold VectorIndex.search VectorIndex.dim?
  cases hE : idx.entries with
  | nil => exact absurd hE hne
  | cons e es =>
      have he : e.vector.length = D := hD e (by rw [hE]; exact List.mem_cons_self e es)
      simp [he, hq]

theorem add_ok (idx : VectorIndex) (c : Chunk) (v : EmbeddingVector) (D : Nat)
    (hD : ∀ e ∈ idx.entries, e.vector.length = D) (hv : v.length = D) :
    idx.add c v = .ok ⟨idx.entries ++ [⟨c, v⟩]⟩ := by
  unfold VectorIndex.add VectorIndex.dim?
  cases hE : idx.entries with
  | nil => simp
  | cons e es =>
      have he : e.vector.length = D := hD e (by rw [hE]; exact List.mem_cons_self e es)
      simp [he, hv]

theorem rankLE_score_le {a b : Ranked} (h : rankLE a b) : b.score ≤ a.score := by
  rcases h with h | ⟨h, _⟩
  · exact h.le
  · exact h.ge

theorem rankedList_sorted (idx : VectorIndex) (q : EmbeddingVector) :
    (rankedList idx q).Pairwise rankLE :=
  List.sorted_insertionSort rankLE (scoredEntries idx q)

theorem rankedList_perm (idx : VectorIndex) (q : EmbeddingVector) :
    (rankedList idx q).Perm (scoredEntries idx q) :=
  List.perm_insertionSort rankLE (scoredEntries idx q)

theorem scoredEntries_pairwise_pos (idx : VectorIndex) (q : EmbeddingVector) :
    (scoredEntries idx q).Pairwise (fun a b => a.pos < b.pos) := by
  unfold scoredEntries
  rw [List.pairwise_map, List.pairwise_iff_getElem]
  intro i j hi hj hij
  simp only [List.getElem_enum]
  exact hij

theorem rankedList_pairwise_pos_ne (idx : VectorIndex) (q : EmbeddingVector) :
    (rankedList idx q).Pairwise (fun a b => a.pos ≠ b.pos) :=
  (List.Perm.pairwise_iff (fun h => Ne.symm h) (rankedList_perm idx q)).mpr
    ((scoredEntries_pairwise_pos idx q).imp Nat.ne_of_lt)

theorem score_lt_one_of_mem (idx : VectorIndex) (q : EmbeddingVector) (r : Ranked)
    (h : r ∈ scoredEntries idx q)
    (hmax : ∀ e ∈ idx.entries, sim q e.vector ≠ 1) : r.score < 1 := by
  unfold scoredEntries at h
  obtain ⟨p, hp, rfl⟩ := List.mem_map.mp h
  exact lt_of_le_of_ne (sim_le_one q p.2.vector)
    (hmax p.2 (List.snd_mem_of_mem_enum hp))

theorem scoredEntries_append_single (l : List IndexEntry) (c : Chunk)
    (v q : EmbeddingVector) :
    scoredEntries ⟨l ++ [⟨c, v⟩]⟩ q =
      scoredEntries ⟨l⟩ q ++ [⟨sim q v, l.length, c⟩] := by
  unfold scoredEntries
  rw [List.enum_append]
  simp [List.enumFrom]

/-- An occurrence inside a concatenation lies inside the left part, inside
the right part, or spans the boundary with a nonempty piece on each side. -/
theorem append_infix_cases {α : Type} {t a b : List α} (h : t <:+: a ++ b) :
    t <:+: a ∨ t <:+: b ∨
      ∃ t1 t2, t1 ++ t2 = t ∧ t1 ≠ [] ∧ t2 ≠ [] ∧ t1 <:+ a ∧ t2 <+: b := by
  obtain ⟨s, e, he⟩ := h
  rcases List.append_eq_append_iff.mp he with ⟨a2, ha, hb⟩ | ⟨c2, hst, hd⟩
  · exact Or.inl ⟨s, a2, ha.symm⟩
  · rcases List.append_eq_append_iff.mp hst with ⟨a2, ha2, ht2⟩ | ⟨s2, hs2, hc2⟩
    · rcases eq_or_ne a2 [] with rfl | h1
      · refine Or.inr (Or.inl ⟨[], e, ?_⟩)
        rw [List.nil_append] at ht2
        rw [List.nil_append, ht2]
        exact hd.symm
      · rcases eq_or_ne c2 [] with rfl | h2
        · refine Or.inl ⟨s, [], ?_⟩
          rw [List.append_nil] at ht2
          rw [List.append_nil, ht2]
          exact ha2.symm
        · exact Or.inr (Or.inr ⟨a2, c2, ht2.symm, h1, h2, ⟨s, ha2.symm⟩, ⟨e, hd.symm⟩⟩)
    · exact Or.inr (Or.inl ⟨s2, e, by rw [hd, hc2]⟩)

theorem mem_of_head_of_prefix {α : Type} {t1 t : List α} {ch : α}
    (hpre : t1 <+: t) (hne : t1 ≠ []) (hhead : t.head? = some ch) : ch ∈ t1 := by
  cases t1 with
  | nil => exact absurd rfl hne
  | cons x xs =>
      obtain ⟨r, hr⟩ := hpre
      rw [← hr] at hhead
      simp only [List.cons_append, List.head?_cons, Option.some.injEq] at hhead
      exact hhead ▸ List.mem_cons_self x xs

theorem mem_of_getLast_of_suffix {α : Type} {t2 t : List α} {ch : α}
    (hsuf : t2 <:+ t) (hne : t2 ≠ []) (hlast : t.getLast? = some ch) : ch ∈ t2 := by
  obtain ⟨s, hs⟩ := hsuf
  rw [← hs, List.getLast?_append] at hlast
  cases h2 : t2.getLast? with
  | none => exact absurd (List.getLast?_eq_none_iff.mp h2) hne
  | some y =>
      rw [h2] at hlast
      simp only [Option.or_some, Option.some.injEq] at hlast
      obtain ⟨ys, hys⟩ := List.getLast?_eq_some_iff.mp h2
      rw [hys, hlast]
      exact List.mem_append_right ys (List.mem_singleton.mpr rfl)

set_option maxRecDepth 20000 in
/-- No string whose first character is an opening brace and whose last
character is a closing brace and whose length is at most that of the middle
literal can occur in a built prompt, unless it already occurs in the
substituted context or question: the template literals contain no braces. -/
theorem build_no_token {t c q : Str}
    (hhead : t.head? = some lbrace) (hlast : t.getLast? = some rbrace)
    (hlen : t.length ≤ 12)
    (hc : ¬ t <:+: c) (hq : ¬ t <:+: q) :
    ¬ t <:+: PromptBuilder.build c q := by
  have hbuild : PromptBuilder.build c q = lit1 ++ (c ++ (lit2 ++ (q ++ lit3))) := by
    simp [PromptBuilder.build, List.append_assoc]
  have htne : t ≠ [] := by
    intro h
    rw [h] at hhead
    exact Option.noConfusion hhead
  have hlb : lbrace ∈ t := mem_of_head_of_prefix (List.prefix_refl t) htne hhead
  have hL1 : lbrace ∉ lit1 := by decide
  have hL2 : lbrace ∉ lit2 := by decide
  have hL3 : lbrace ∉ lit3 := by decide
  have hR2 : rbrace ∉ lit2 := by decide
  have hR3 : rbrace ∉ lit3 := by decide
  have hlen2 : lit2.length = 12 := by decide
  intro h
  rw [hbuild] at h
  rcases append_infix_cases h with h1 | h1 | ⟨t1, t2, ht, h1ne, h2ne, h1s, h2p⟩
  · exact hL1 (h1.subset hlb)
  · rcases append_infix_cases h1 with h2 | h2 | ⟨t1, t2, ht, h1ne, h2ne, h1s, h2p⟩
    · exact hc h2
    · rcases append_infix_cases h2 with h3 | h3 | ⟨t1, t2, ht, h1ne, h2ne, h1s, h2p⟩
      · exact hL2 (h3.subset hlb)
      · rcases append_infix_cases h3 with h4 | h4 | ⟨t1, t2, ht, h1ne, h2ne, h1s, h2p⟩
        · exact hq h4
        · exact hL3 (h4.subset hlb)
        · have hmem : rbrace ∈ t2 := mem_of_getLast_of_suffix ⟨t1, ht⟩ h2ne hlast
          exact hR3 (h2p.subset hmem)
      · have hmem : lbrace ∈ t1 := mem_of_head_of_prefix ⟨t2, ht⟩ h1ne hhead
        exact hL2 (h1s.subset hmem)
    · have hmem : rbrace ∈ t2 := mem_of_getLast_of_suffix ⟨t1, ht⟩ h2ne hlast
      have hlent2 : t2.length ≤ lit2.length := by
        rw [hlen2]
        refine le_trans ?_ hlen
        rw [← ht, List.length_append]
        omega
      have hpre2 : t2 <+: lit2 :=
        List.prefix_of_prefix_length_le h2p (List.prefix_append lit2 (q ++ lit3)) hlent2
      exact hR2 (hpre2.subset hmem)
  · have hmem : lbrace ∈ t1 := mem_of_head_of_prefix ⟨t2, ht⟩ h1ne hhead
    exact hL1 (h1s.subset hmem)

/-- C1: for every non-empty vector index whose entries all have dimension D
and every query vector of dimension D, search returns a retrieval result
whose (chunk, score) pairs are sorted by non-increasing similarity score,
highest first, of length at most the requested k. -/
theorem claim_C1_search_sorted (idx : VectorIndex) (q : EmbeddingVector) (D k : Nat)
    (hne : idx.entries ≠ []) (hD : ∀ e ∈ idx.entries, e.vector.length = D)
    (hq : q.length = D) :
    ∃ r, idx.search q k = .ok r ∧ r.length ≤ k ∧
      r.Pairwise (fun a b => b.score ≤ a.score) := by
  refine ⟨_, search_eq_ok idx q k D hne hD hq, ?_, ?_⟩
  · rw [List.length_map]
    exact List.length_take_le k _
  · rw [List.pairwise_map]
    exact (List.Pairwise.sublist (List.take_sublist k _) (rankedList_sorted idx q)).imp
      rankLE_score_le

/-- Witness for C1 at a concrete two-entry index of dimension 2. -/
theorem claim_C1_witness :
    ∃ r, (VectorIndex.mk [⟨⟨0, "a".toList⟩, [1, 0]⟩, ⟨⟨1, "b".toList⟩, [0, 1]⟩]).search
        [1, 0] 2 = .ok r ∧ r.length ≤ 2 ∧ r.Pairwise (fun a b => b.score ≤ a.score) :=
  claim_C1_search_sorted (VectorIndex.mk [⟨⟨0, "a".toList⟩, [1, 0]⟩, ⟨⟨1, "b".toList⟩, [0, 1]⟩])
    [1, 0] 2 2 (by decide) (by decide) (by decide)

/-- C2: the context handed to the prompt builder by the orchestrator equals
the join of the retrieved chunk texts with the separator; an empty
retrieval result yields the empty context, with no special-casing. -/
theorem claim_C2_context_join (cfg : RAGConfig) (idx : VectorIndex) (question : Str)
    (results : List ScoredChunk)
    (h : idx.search (cfg.embed question) cfg.k = .ok results) :
    runPipeline cfg idx question =
      .ok (cfg.generate (PromptBuilder.build
        (List.intercalate cfg.separator (results.map (fun r => r.chunk.text))) question)) ∧
    (results = [] →
      List.intercalate cfg.separator (results.map (fun r => r.chunk.text)) = []) := by
  constructor
  · unfold runPipeline
    rw [h]
    rfl
  · rintro rfl
    rfl

/-- Witness for C2 at a concrete one-entry index and identity backends. -/
theorem claim_C2_witness :
    runPipeline ⟨fun _ => [1], fun s => s, 1, []⟩
        (VectorIndex.mk [⟨⟨0, "k".toList⟩, [1]⟩]) ("x".toList) =
      .ok ((⟨fun _ => [1], fun s => s, 1, []⟩ : RAGConfig).generate (PromptBuilder.build
        (List.intercalate [] (([⟨⟨0, "k".toList⟩, 1⟩] : List ScoredChunk).map
          (fun r => r.chunk.text))) ("x".toList))) ∧
    (([⟨⟨0, "k".toList⟩, 1⟩] : List ScoredChunk) = [] →
      List.intercalate [] (([⟨⟨0, "k".toList⟩, 1⟩] : List ScoredChunk).map
        (fun r => r.chunk.text)) = []) :=
  claim_C2_context_join ⟨fun _ => [1], fun s => s, 1, []⟩
    (VectorIndex.mk [⟨⟨0, "k".toList⟩, [1]⟩]) ("x".toList) [⟨⟨0, "k".toList⟩, 1⟩]
    (by simp [VectorIndex.search, VectorIndex.dim?, rankedList, scoredEntries, sim, normSq,
      dotProduct, List.insertionSort, List.orderedInsert])

/-- C3: batch mode is the element-wise application of the single-question
pipeline: output order matches input order and each position carries its
own answer or error, unaffected by the other positions. -/
theorem claim_C3_batch (cfg : RAGConfig) (idx : VectorIndex) (q1 q2 : Str) :
    pipelineBatch cfg idx [q1, q2] = [runPipeline cfg idx q1, runPipeline cfg idx q2] ∧
    ∀ (qs : List Str) (i : Nat),
      (pipelineBatch cfg idx qs)[i]? = (qs[i]?).map (runPipeline cfg idx) := by
  refine ⟨rfl, ?_⟩
  intro qs i
  simp [pipelineBatch]

/-- C4: search on an empty index returns the empty retrieval result and
never signals an error. -/
theorem claim_C4_empty_search (idx : VectorIndex) (q : EmbeddingVector) (k : Nat)
    (h : idx.entries = []) : idx.search q k = .ok [] :=
  search_nil idx q k h

/-- Witness for C4 at the concrete empty index. -/
theorem claim_C4_witness : (VectorIndex.mk []).search [1, 2] 3 = .ok [] :=
  claim_C4_empty_search (VectorIndex.mk []) [1, 2] 3 rfl

/-- C6: add with a vector of mismatched dimension fails with
DimensionMismatch, and the index the caller holds afterwards has the same
entry count as before (in this functional model a failed add returns no new
index, so the caller keeps the old one). -/
theorem claim_C6_add_mismatch (idx : VectorIndex) (c : Chunk) (v : EmbeddingVector)
    (D : Nat) (hne : idx.entries ≠ []) (hD : ∀ e ∈ idx.entries, e.vector.length = D)
    (hv : v.length ≠ D) :
    idx.add c v = .error .DimensionMismatch ∧
      ((idx.add c v).toOption.getD idx).entries.length = idx.entries.length := by
  have herr : idx.add c v = .error .DimensionMismatch := by
    unfold VectorIndex.add VectorIndex.dim?
    cases hE : idx.entries with
    | nil => exact absurd hE hne
    | cons e es =>
        have he : e.vector.length = D := hD e (by rw [hE]; exact List.mem_cons_self e es)
        simp [he, hv]
  exact ⟨herr, by rw [herr]; rfl⟩


/-- Witness for C6: adding a two-dimensional vector to a one-dimensional
index fails and leaves the entry count at one. -/
theorem claim_C6_witness :
    (VectorIndex.mk [⟨⟨0, "a".toList⟩, [1]⟩]).add ⟨1, "b".toList⟩ [1, 2] =
        .error .DimensionMismatch ∧
      (((VectorIndex.mk [⟨⟨0, "a".toList⟩, [1]⟩]).add ⟨1, "b".toList⟩ [1, 2]).toOption.getD
          (VectorIndex.mk [⟨⟨0, "a".toList⟩, [1]⟩])).entries.length =
        (VectorIndex.mk [⟨⟨0, "a".toList⟩, [1]⟩]).entries.length :=
  claim_C6_add_mismatch (VectorIndex.mk [⟨⟨0, "a".toList⟩, [1]⟩]) ⟨1, "b".toList⟩ [1, 2] 1
    (by decide) (by decide) (by decide)

/-- C8: searching with k greater than the entry count returns all entries,
each exactly once (the result chunks are a permutation of the stored
chunks), with no error signaled. -/
theorem claim_C8_k_exceeds (idx : VectorIndex) (q : EmbeddingVector) (k : Nat)
    (hval : ∀ e ∈ idx.entries, e.vector.length = q.length)
    (hk : idx.entries.length < k) :
    ∃ r, idx.search q k = .ok r ∧ r.length = idx.entries.length ∧
      (r.map (fun s => s.chunk)).Perm (idx.entries.map (fun e => e.chunk)) := by
  rcases eq_or_ne idx.entries [] with hE | hne
  · refine ⟨[], search_nil idx q k hE, ?_, ?_⟩
    · rw [hE]
      rfl
    · rw [hE]
      exact List.Perm.nil
  · have hlenr : (rankedList idx q).length = idx.entries.length := by
      unfold rankedList
      rw [List.length_insertionSort]
      unfold scoredEntries
      rw [List.length_map, List.enum_length]
    have htake : (rankedList idx q).take k = rankedList idx q :=
      List.take_of_length_le (by rw [hlenr]; exact hk.le)
    have hsc : (scoredEntries idx q).map (fun r => r.chunk) =
        idx.entries.map (fun e => e.chunk) := by
      unfold scoredEntries
      rw [List.map_map]
      conv_rhs => rw [← List.enum_map_snd idx.entries, List.map_map]
      rfl
    refine ⟨_, search_eq_ok idx q k q.length hne hval rfl, ?_, ?_⟩
    · rw [List.length_map, htake, hlenr]
    · rw [htake, List.map_map]
      have hperm := (rankedList_perm idx q).map (fun r : Ranked => r.chunk)
      rw [hsc] at hperm
      exact hperm

/-- Witness for C8: a two-entry index queried with k = 3. -/
theorem claim_C8_witness :
    ∃ r, (VectorIndex.mk [⟨⟨0, "a".toList⟩, [1, 0]⟩, ⟨⟨1, "b".toList⟩, [0, 1]⟩]).search
        [1, 0] 3 = .ok r ∧
      r.length = (VectorIndex.mk [⟨⟨0, "a".toList⟩, [1, 0]⟩,
        ⟨⟨1, "b".toList⟩, [0, 1]⟩]).entries.length ∧
      (r.map (fun s => s.chunk)).Perm ((VectorIndex.mk [⟨⟨0, "a".toList⟩, [1, 0]⟩,
        ⟨⟨1, "b".toList⟩, [0, 1]⟩]).entries.map (fun e => e.chunk)) :=
  claim_C8_k_exceeds (VectorIndex.mk [⟨⟨0, "a".toList⟩, [1, 0]⟩, ⟨⟨1, "b".toList⟩, [0, 1]⟩])
    [1, 0] 3 (by decide) (by decide)

/-- C9: search returns exactly the ranked prefix of the stored entries, and
within it two entries with equal similarity scores are ordered by insertion
position, the earlier inserted entry first. -/
theorem claim_C9_ties (idx : VectorIndex) (q : EmbeddingVector) (k : Nat)
    (hne : idx.entries ≠ []) (hD : ∀ e ∈ idx.entries, e.vector.length = q.length) :
    idx.search q k =
      .ok (((rankedList idx q).take k).map (fun r => ⟨r.chunk, r.score⟩)) ∧
    ((rankedList idx q).take k).Pairwise (fun a b => a.score = b.score → a.pos < b.pos) := by
  refine ⟨search_eq_ok idx q k q.length hne hD rfl, ?_⟩
  have h1 : ((rankedList idx q).take k).Pairwise rankLE :=
    List.Pairwise.sublist (List.take_sublist k _) (rankedList_sorted idx q)
  have h2 : ((rankedList idx q).take k).Pairwise (fun a b => a.pos ≠ b.pos) :=
    List.Pairwise.sublist (List.take_sublist k _) (rankedList_pairwise_pos_ne idx q)
  refine (h1.and h2).imp ?_
  intro a b hab heq
  rcases hab with ⟨hlt | ⟨_, hle⟩, hp⟩
  · rw [heq] at hlt
    exact absurd hlt (lt_irrefl _)
  · exact lt_of_le_of_ne hle hp

/-- Witness for C9 at an index with two entries tied at the same score. -/
theorem claim_C9_witness :
    (VectorIndex.mk [⟨⟨0, "a".toList⟩, [1]⟩, ⟨⟨1, "b".toList⟩, [1]⟩]).search [1] 2 =
      .ok (((rankedList (VectorIndex.mk [⟨⟨0, "a".toList⟩, [1]⟩, ⟨⟨1, "b".toList⟩, [1]⟩])
        [1]).take 2).map (fun r => ⟨r.chunk, r.score⟩)) ∧
    ((rankedList (VectorIndex.mk [⟨⟨0, "a".toList⟩, [1]⟩, ⟨⟨1, "b".toList⟩, [1]⟩])
        [1]).take 2).Pairwise (fun a b => a.score = b.score → a.pos < b.pos) :=
  claim_C9_ties (VectorIndex.mk [⟨⟨0, "a".toList⟩, [1]⟩, ⟨⟨1, "b".toList⟩, [1]⟩]) [1] 2
    (by decide) (by decide)

/-- C10: for every MODEL string starting with gpt, the initialization cell
ends in a NameError at the final print, since response is bound only in the
non-gpt branch; only the non-gpt path completes the cell successfully. -/
theorem claim_C10_gpt_name_error (MODEL : Str) (invoke : Str → Str) :
    (List.isPrefixOf "gpt".toList MODEL = true →
      runModelInitCell MODEL invoke = .error .nameError) ∧
    (List.isPrefixOf "gpt".toList MODEL = false →
      ∃ s, runModelInitCell MODEL invoke = .ok s) := by
  constructor
  · intro h
    unfold runModelInitCell
    rw [h]
  · intro h
    unfold runModelInitCell
    rw [h]
    exact ⟨_, rfl⟩

/-- Witness for C10 at the concrete gpt model name of the source. -/
theorem claim_C10_witness :
    runModelInitCell "gpt-3.5-turbo".toList (fun _ => "test".toList) =
      .error .nameError :=
  (claim_C10_gpt_name_error "gpt-3.5-turbo".toList (fun _ => "test".toList)).1 (by decide)

/-- Counterexample to C5 as stated: when the added vector duplicates a
stored one, both score the maximum 1, the tie is broken towards the earlier
insertion, and search(v, 1) returns the previously stored entry (chunk 0),
not the just-added one (chunk 1). -/
theorem claim_C5_counterexample :
    (VectorIndex.mk [⟨⟨0, "a".toList⟩, [1]⟩]).add ⟨1, "b".toList⟩ [1] =
        .ok (VectorIndex.mk [⟨⟨0, "a".toList⟩, [1]⟩, ⟨⟨1, "b".toList⟩, [1]⟩]) ∧
      (VectorIndex.mk [⟨⟨0, "a".toList⟩, [1]⟩, ⟨⟨1, "b".toList⟩, [1]⟩]).search [1] 1 =
        .ok [⟨⟨0, "a".toList⟩, 1⟩] ∧
      (⟨0, "a".toList⟩ : Chunk) ≠ ⟨1, "b".toList⟩ := by
  refine ⟨?_, ?_, by decide⟩
  · norm_num [VectorIndex.add, VectorIndex.dim?]
  · norm_num [VectorIndex.search, VectorIndex.dim?, rankedList, scoredEntries, sim, normSq,
      dotProduct, List.insertionSort, List.orderedInsert, rankLE]

/-- C5 (amended): if the index has established dimension D, the added
vector v has dimension D and nonzero norm, and no already-stored entry
attains the maximal similarity 1 to v, then add(chunk, v) followed by
search(v, 1) returns exactly the added entry, with similarity score 1, the
maximum the metric can attain on any pair of vectors. -/
theorem claim_C5_amended (idx : VectorIndex) (c : Chunk) (v : EmbeddingVector) (D : Nat)
    (_hne : idx.entries ≠ []) (hD : ∀ e ∈ idx.entries, e.vector.length = D)
    (hv : v.length = D) (hnz : normSq v ≠ 0)
    (hmax : ∀ e ∈ idx.entries, sim v e.vector ≠ 1) :
    ∃ idx', idx.add c v = .ok idx' ∧ idx'.search v 1 = .ok [⟨c, 1⟩] ∧
      ∀ u w : EmbeddingVector, sim u w ≤ 1 := by
  refine ⟨⟨idx.entries ++ [⟨c, v⟩]⟩, add_ok idx c v D hD hv, ?_, fun u w => sim_le_one u w⟩
  have hD' : ∀ e ∈ (VectorIndex.mk (idx.entries ++ [⟨c, v⟩])).entries,
      e.vector.length = D := by
    intro e he
    rcases List.mem_append.mp he with h | h
    · exact hD e h
    · rw [List.mem_singleton.mp h]
      exact hv
  have hne' : (VectorIndex.mk (idx.entries ++ [⟨c, v⟩])).entries ≠ [] := by
    simp [List.append_eq_nil]
  rw [search_eq_ok _ v 1 D hne' hD' hv]
  have hscored : scoredEntries ⟨idx.entries ++ [⟨c, v⟩]⟩ v =
      scoredEntries ⟨idx.entries⟩ v ++ [⟨1, idx.entries.length, c⟩] := by
    rw [scoredEntries_append_single idx.entries c v v, sim_self v hnz]
  have hmem_new : (⟨1, idx.entries.length, c⟩ : Ranked) ∈
      rankedList ⟨idx.entries ++ [⟨c, v⟩]⟩ v := by
    rw [(rankedList_perm _ v).mem_iff, hscored]
    exact List.mem_append_right _ (List.mem_singleton.mpr rfl)
  have hlt : ∀ r ∈ rankedList ⟨idx.entries ++ [⟨c, v⟩]⟩ v,
      r ≠ ⟨1, idx.entries.length, c⟩ → r.score < 1 := by
    intro r hr hne_r
    have hr' : r ∈ scoredEntries ⟨idx.entries ++ [⟨c, v⟩]⟩ v :=
      (rankedList_perm _ v).mem_iff.mp hr
    rw [hscored] at hr'
    rcases List.mem_append.mp hr' with h | h
    · exact score_lt_one_of_mem ⟨idx.entries⟩ v r h hmax
    · exact absurd (List.mem_singleton.mp h) hne_r
  cases hR : rankedList ⟨idx.entries ++ [⟨c, v⟩]⟩ v with
  | nil =>
      rw [hR] at hmem_new
      exact absurd hmem_new (List.not_mem_nil _)
  | cons hd tl =>
      have hhd_mem : hd ∈ rankedList ⟨idx.entries ++ [⟨c, v⟩]⟩ v := by
        rw [hR]
        exact List.mem_cons_self hd tl
      have hd_eq : hd = ⟨1, idx.entries.length, c⟩ := by
        by_contra hne_hd
        have hscore : hd.score < 1 := hlt hd hhd_mem hne_hd
        have hmem_tl : (⟨1, idx.entries.length, c⟩ : Ranked) ∈ tl := by
          rw [hR] at hmem_new
          rcases List.mem_cons.mp hmem_new with h | h
          · exact absurd h.symm hne_hd
          · exact h
        have hsort := rankedList_sorted ⟨idx.entries ++ [⟨c, v⟩]⟩ v
        rw [hR] at hsort
        have hrel : rankLE hd ⟨1, idx.entries.length, c⟩ :=
          List.rel_of_pairwise_cons hsort hmem_tl
        rcases hrel with h | ⟨h, _⟩
        · exact absurd (h.trans hscore) (lt_irrefl _)
        · rw [h] at hscore
          exact absurd hscore (lt_irrefl _)
      rw [hd_eq]
      rfl

/-- Witness for the amended C5: a fresh orthogonal vector added to a
one-entry index of dimension 2 comes back as the unique top-1 hit with
score 1. -/
theorem claim_C5_witness :
    ∃ idx', (VectorIndex.mk [⟨⟨0, "a".toList⟩, [0, 1]⟩]).add ⟨1, "b".toList⟩ [1, 0] =
        .ok idx' ∧
      idx'.search [1, 0] 1 = .ok [⟨⟨1, "b".toList⟩, 1⟩] ∧
      ∀ u w : EmbeddingVector, sim u w ≤ 1 :=
  claim_C5_amended (VectorIndex.mk [⟨⟨0, "a".toList⟩, [0, 1]⟩]) ⟨1, "b".toList⟩ [1, 0] 2
    (by decide) (by decide) (by decide) (by simp [normSq, dotProduct])
    (by
      intro e he
      simp only [List.mem_singleton] at he
      simp [he, sim, normSq, dotProduct])

set_option maxRecDepth 20000 in
/-- Counterexample to C7 as stated: with the context string itself equal to
the context placeholder token, the built prompt still contains that token
as a substring, so the claim that no placeholder tokens remain fails for
some inputs. -/
theorem claim_C7_counterexample :
    ¬ ∀ c q : Str,
        c <:+: PromptBuilder.build c q ∧ q <:+: PromptBuilder.build c q ∧
          ¬ ctxToken <:+: PromptBuilder.build c q ∧
          ¬ qToken <:+: PromptBuilder.build c q := by
  intro h
  exact (h ctxToken "Q".toList).2.2.1 (by decide)

set_option maxRecDepth 20000 in
/-- C7 (amended): for inputs that do not themselves contain a placeholder
token, the built prompt contains the context and the question as substrings
and no placeholder token remains. -/
theorem claim_C7_amended (c q : Str)
    (h1 : ¬ ctxToken <:+: c) (h2 : ¬ qToken <:+: c)
    (h3 : ¬ ctxToken <:+: q) (h4 : ¬ qToken <:+: q) :
    c <:+: PromptBuilder.build c q ∧ q <:+: PromptBuilder.build c q ∧
      ¬ ctxToken <:+: PromptBuilder.build c q ∧
      ¬ qToken <:+: PromptBuilder.build c q := by
  refine ⟨⟨lit1, lit2 ++ q ++ lit3, ?_⟩, ⟨lit1 ++ c ++ lit2, lit3, ?_⟩,
    build_no_token (by decide) (by decide) (by decide) h1 h3,
    build_no_token (by decide) (by decide) (by decide) h2 h4⟩
  · simp [PromptBuilder.build, List.append_assoc]
  · simp [PromptBuilder.build, List.append_assoc]

set_option maxRecDepth 20000 in
/-- Witness for the amended C7 at plain one-character inputs. -/
theorem claim_C7_witness :
    "C".toList <:+: PromptBuilder.build "C".toList "Q".toList ∧
      "Q".toList <:+: PromptBuilder.build "C".toList "Q".toList ∧
      ¬ ctxToken <:+: PromptBuilder.build "C".toList "Q".toList ∧
      ¬ qToken <:+: PromptBuilder.build "C".toList "Q".toList :=
  claim_C7_amended "C".toList "Q".toList (by decide) (by decide) (by decide) (by decide)
